import Mathlib

/-!
# Aegis-Oxbow relayer: shallow embedding and verification

A shallow embedding of the intent-pooling / batch-execution engine of the
Aegis-Oxbow relayer (`src/relayer/src/relayer.ts`) and of its gas predictor
(`GasPredictor.ts`), together with theorems settling the specification
claims about them.

Modelling conventions:
* TypeScript `bigint` wei amounts become `ℕ`; gwei readings (JS `number`)
  become `ℚ`.  `parseFloat(ethers.formatUnits(wei, "gwei"))` is modelled as
  the exact rational `wei / 10^9`; no settled claim depends on the rounding
  of that conversion.
* The neural network's activation `sigmoid(x) = 1 / (1 + exp(-x))` is a
  transcendental function of a float; the development is parameterized by an
  arbitrary activation `σ : ℚ → ℚ` threaded through network evaluation and
  training.  Every theorem proved below holds for every `σ`, hence in
  particular for (any exact or floating-point reading of) the source's
  sigmoid.
* Asynchrony: `executeBatch` runs synchronously from its entry up to the
  first `await` (the vault-balance query), which is after the pool drain.
  It is therefore split into `execBegin` (guard, flags, drain, syncState)
  and `execFinish` (balance check, settlement outcome, catch/finally),
  with the intents enqueued during the in-flight part modelled as an
  explicit list folded through `handleIntent` between the two halves.
-/

namespace Aegis

/-! ## Gas predictor (`GasPredictor.ts`) -/

/-- The weight/bias state of `SimpleNeuralNetwork` (constructor arguments
`inputSize = 10`, `hiddenSize = 5`, `outputSize = 1`; the source initializes
every entry with `Math.random() * 2 - 1`, so initial parameters are
arbitrary and are quantified over in the theorems). -/
structure SimpleNeuralNetwork where
  weightsInputHidden : List (List ℚ)
  weightsHiddenOutput : List (List ℚ)
  biasHidden : List ℚ
  biasOutput : List ℚ
deriving DecidableEq

/-- `this.learningRate = 0.1`. -/
def learningRate : ℚ := 1 / 10

/-- Dot product of two coefficient lists. -/
def dot (xs ys : List ℚ) : ℚ := (List.zipWith (fun a b => a * b) xs ys).sum

/-- Column `j` of a weight matrix stored (as in the source) as
`weights[i][j]` with `i` ranging over the source layer. -/
def column (w : List (List ℚ)) (j : ℕ) : List ℚ := w.map (fun row => row.getD j 0)

/-- One layer evaluation: `out[j] = σ (bias[j] + Σ_i inputs[i] * weights[i][j])`,
the loop shape of both layers in `run` and of the forward pass in `train`. -/
def layerForward (σ : ℚ → ℚ) (bias : List ℚ) (weights : List (List ℚ))
    (inputs : List ℚ) : List ℚ :=
  (List.range bias.length).map (fun j => σ (bias.getD j 0 + dot inputs (column weights j)))

/-- `sigmoidDerivative(x) = x * (1 - x)` (a polynomial; it does not involve
the activation itself). -/
def sigmoidDerivative (x : ℚ) : ℚ := x * (1 - x)

/-- `SimpleNeuralNetwork.run`: forward pass through the hidden layer and the
output layer. -/
def SimpleNeuralNetwork.run (σ : ℚ → ℚ) (net : SimpleNeuralNetwork)
    (inputs : List ℚ) : List ℚ :=
  let hiddenOutputs := layerForward σ net.biasHidden net.weightsInputHidden inputs
  layerForward σ net.biasOutput net.weightsHiddenOutput hiddenOutputs

/-- `SimpleNeuralNetwork.train`: forward pass, backpropagated errors, and the
four weight/bias updates, exactly in the source's formulas.  The source loops
over the constructor-declared sizes; since the constructor allocates the
arrays with exactly those sizes, iterating over the stored rows is the same
iteration space. -/
def SimpleNeuralNetwork.train (σ : ℚ → ℚ) (net : SimpleNeuralNetwork)
    (inputs expectedOutput : List ℚ) : SimpleNeuralNetwork :=
  let hiddenOutputs := layerForward σ net.biasHidden net.weightsInputHidden inputs
  let finalOutputs := layerForward σ net.biasOutput net.weightsHiddenOutput hiddenOutputs
  let outputErrors := (List.range finalOutputs.length).map (fun k =>
    (expectedOutput.getD k 0 - finalOutputs.getD k 0) * sigmoidDerivative (finalOutputs.getD k 0))
  let hiddenErrors := (List.range hiddenOutputs.length).map (fun j =>
    dot (net.weightsHiddenOutput.getD j []) outputErrors * sigmoidDerivative (hiddenOutputs.getD j 0))
  { weightsHiddenOutput :=
      (List.range net.weightsHiddenOutput.length).map (fun j =>
        (net.weightsHiddenOutput.getD j []).zipWith
          (fun v e => v + learningRate * e * hiddenOutputs.getD j 0) outputErrors),
    biasOutput := net.biasOutput.zipWith (fun v e => v + learningRate * e) outputErrors,
    weightsInputHidden :=
      (List.range net.weightsInputHidden.length).map (fun i =>
        (net.weightsInputHidden.getD i []).zipWith
          (fun v e => v + learningRate * e * inputs.getD i 0) hiddenErrors),
    biasHidden := net.biasHidden.zipWith (fun v e => v + learningRate * e) hiddenErrors }

/-- `this.windowSize = 10`: fixed sliding-window capacity. -/
def windowSize : ℕ := 10

/-- `AIGasPredictor` state: the network, the `isTrained` flag, and the
sliding window `historicalFees` of gwei samples. -/
structure AIGasPredictor where
  net : SimpleNeuralNetwork
  isTrained : Bool
  historicalFees : List ℚ
deriving DecidableEq

/-- The `AIGasPredictor` constructor state: empty window, untrained, network
parameters `net0` (randomly initialized in the source, hence a parameter). -/
def AIGasPredictor.mk0 (net0 : SimpleNeuralNetwork) : AIGasPredictor :=
  { net := net0, isTrained := false, historicalFees := [] }

/-- Models `parseFloat(ethers.formatUnits(baseFeeWei, "gwei"))` as the exact
rational `baseFeeWei / 10^9` (float rounding ignored; no settled claim
depends on the sample's numeric value). -/
def gweiOfWei (baseFeeWei : ℕ) : ℚ := (baseFeeWei : ℚ) / 10 ^ 9

/-- `Math.max(...fees)` over a window (the window is nonempty at every call
site; the `[]` case is an arbitrary default). -/
def listMax : List ℚ → ℚ
  | [] => 0
  | x :: xs => xs.foldl max x

/-- `Math.min(...fees)` over a window. -/
def listMin : List ℚ → ℚ
  | [] => 0
  | x :: xs => xs.foldl min x

/-- `const range = maxFee - minFee || 1`: a zero range (all samples equal)
falls back to `1`, avoiding division by zero in the normalization. -/
def feeRange (fees : List ℚ) : ℚ :=
  if listMax fees - listMin fees = 0 then 1 else listMax fees - listMin fees

/-- The target-label computation of `trainModel` (lines 156-163): given the
window mean `avg` and the latest sample `currentFee`,
if the latest sample is below the mean the target is
`min 0.99 (0.5 + dropRatio * 2)` with `dropRatio = (avg - currentFee)/avg`,
otherwise `max 0.01 (0.5 - hikeRatio * 2)` with
`hikeRatio = (currentFee - avg)/avg`. -/
def targetScoreOf (avg currentFee : ℚ) : ℚ :=
  if currentFee < avg then
    min (99 / 100) (1 / 2 + (avg - currentFee) / avg * 2)
  else
    max (1 / 100) (1 / 2 - (currentFee - avg) / avg * 2)

/-- `AIGasPredictor.trainModel`: normalize the window by min/range, derive
the target label from mean and latest sample, run 200 training iterations,
and set `isTrained`. -/
def AIGasPredictor.trainModel (σ : ℚ → ℚ) (p : AIGasPredictor) : AIGasPredictor :=
  let minFee := listMin p.historicalFees
  let range := feeRange p.historicalFees
  let normalizedHistory := p.historicalFees.map (fun f => (f - minFee) / range)
  let avg := p.historicalFees.sum / (windowSize : ℚ)
  let currentFee := p.historicalFees.getD (windowSize - 1) 0
  let targetScore := targetScoreOf avg currentFee
  { p with
    net := Nat.iterate (fun n => n.train σ normalizedHistory [targetScore]) 200 p.net,
    isTrained := true }

/-- `AIGasPredictor.addBlockDataAndTrain`: push the gwei reading, evict the
oldest sample when the window exceeds capacity (`shift()`), and run a
training pass exactly when the window is at capacity. -/
def AIGasPredictor.addBlockDataAndTrain (σ : ℚ → ℚ) (p : AIGasPredictor)
    (baseFeeWei : ℕ) : AIGasPredictor :=
  let fees1 := p.historicalFees ++ [gweiOfWei baseFeeWei]
  let fees2 := if windowSize < fees1.length then fees1.tail else fees1
  let p1 : AIGasPredictor := { p with historicalFees := fees2 }
  if fees2.length = windowSize then p1.trainModel σ else p1

/-- Absorbing a whole sequence of block base fees, oldest first. -/
def AIGasPredictor.addAll (σ : ℚ → ℚ) (p : AIGasPredictor) (feesWei : List ℕ) :
    AIGasPredictor :=
  feesWei.foldl (fun q f => q.addBlockDataAndTrain σ f) p

/-- `AIGasPredictor.shouldExecuteBatch`: guard on readiness and window
fullness, then normalize the stored window, run a forward pass, and compare
the score against the 0.7 cutoff.  Note the `currentFeeWei` argument is
never read in the body, exactly as in the source. -/
def AIGasPredictor.shouldExecuteBatch (σ : ℚ → ℚ) (p : AIGasPredictor)
    (currentFeeWei : ℕ) : Bool × ℚ :=
  if p.isTrained = false ∨ p.historicalFees.length < windowSize then (false, 0)
  else
    let minFee := listMin p.historicalFees
    let range := feeRange p.historicalFees
    let normalizedInput := p.historicalFees.map (fun f => (f - minFee) / range)
    let prediction := p.net.run σ normalizedInput
    let score := prediction.getD 0 0
    (decide (7 / 10 < score), score)

/-! ## Relayer engine (`relayer.ts`) -/

/-- The `Intent` interface.  Wei amounts become `ℕ`, timestamps and block
heights become `ℕ`, addresses and transaction hashes stay strings. -/
structure Intent where
  sender : String
  receiver : String
  amount : ℕ
  intentIndex : ℕ
  receivedAt : ℕ
  txHash : String
  blockNumber : ℕ
deriving DecidableEq

/-- The `BatchStatus` union type. -/
inductive BatchStatus where
  | IDLE
  | POOLING
  | EXECUTING
  | EXECUTED
  | ERROR
deriving DecidableEq

/-- `RelayerState.lastBatch`.  The source stores `totalValue` as the
`formatEther` string of the wei sum; it is modelled as the wei sum itself. -/
structure LastBatch where
  txHash : Option String
  batchSize : ℕ
  totalValue : ℕ
  executedAt : Option ℕ
deriving DecidableEq

/-- The fields of `RelayerState` that the engine reads or that the settled
claims mention.  The presentation-only mirrors (`batchSizeThreshold`,
`aiState`, `uptime`, `startedAt`) are pure copies of configuration, clock and
predictor reads: the engine never reads them back, and `syncState` overwrites
them wholesale, so they are omitted here. -/
structure RelayerState where
  status : BatchStatus
  pooledIntents : List Intent
  lastBatch : LastBatch
  totalBatchesExecuted : ℕ
  totalIntentsProcessed : ℕ
deriving DecidableEq

/-- The mutable engine fields of `AegisRelayer`: the live pool, the
`isExecuting` mutual-exclusion flag, and the public `state` object. -/
structure AegisRelayer where
  intentPool : List Intent
  isExecuting : Bool
  state : RelayerState
deriving DecidableEq

/-- The constructor's initial engine state. -/
def AegisRelayer.mk0 : AegisRelayer :=
  { intentPool := [],
    isExecuting := false,
    state :=
      { status := .IDLE,
        pooledIntents := [],
        lastBatch := { txHash := none, batchSize := 0, totalValue := 0, executedAt := none },
        totalBatchesExecuted := 0,
        totalIntentsProcessed := 0 } }

/-- `syncState()`: refresh `state.pooledIntents` from the live pool, and
recompute `state.status` from the pool size unless the current status is
`EXECUTING` or `ERROR` (those are sticky). -/
def syncState (r : AegisRelayer) : AegisRelayer :=
  let st1 := { r.state with pooledIntents := r.intentPool }
  let st2 :=
    if st1.status = .EXECUTING ∨ st1.status = .ERROR then st1
    else { st1 with status := if r.intentPool = [] then BatchStatus.IDLE else .POOLING }
  { r with state := st2 }

/-- The synchronous prefix of `executeBatch()` (up to the first `await`):
the idempotency guard (`isExecuting` or empty pool short-circuits), setting
the executing flag and `EXECUTING` status, the atomic drain
(`splice(0, length)`), and the `syncState` call.  Returns the new engine
state together with the drained batch (empty when the guard short-circuits). -/
def execBegin (r : AegisRelayer) : AegisRelayer × List Intent :=
  if r.isExecuting = true ∨ r.intentPool = [] then (r, [])
  else
    let r1 := { r with isExecuting := true, state := { r.state with status := .EXECUTING } }
    let batch := r1.intentPool
    let r2 := syncState { r1 with intentPool := [] }
    (r2, batch)

/-- `handleIntent(intent)`: append to the pool, `syncState`, and when the
pool size reaches the configured threshold invoke `executeBatch`
unconditionally (the predictor is not consulted on this path).  The second
component is the batch drained by the triggered execution (`none` when the
threshold was not reached; `some []` when `executeBatch` was invoked but its
guard short-circuited because an execution is already in flight). -/
def handleIntent (threshold : ℕ) (r : AegisRelayer) (i : Intent) :
    AegisRelayer × Option (List Intent) :=
  let r1 := syncState { r with intentPool := r.intentPool ++ [i] }
  if threshold ≤ r1.intentPool.length then
    let p := execBegin r1
    (p.1, some p.2)
  else (r1, none)

/-- Folding a sequence of arriving intents through `handleIntent`. -/
def enqueueAll (threshold : ℕ) (r : AegisRelayer) (arrivals : List Intent) : AegisRelayer :=
  arrivals.foldl (fun s i => (handleIntent threshold s i).1) r

/-- The sum `amounts.reduce((acc, v) => acc + v, 0n)` of a drained batch
(bigint accumulator, hence unbounded `ℕ`). -/
def batchTotal (batch : List Intent) : ℕ := (batch.map Intent.amount).sum

/-- Outcome of the settlement interaction of one execution attempt:
submission succeeded and was confirmed (with transaction hash and
completion time), or the submission / the confirmation wait threw. -/
inductive SettlementResult where
  | confirmed (txHash : String) (executedAt : ℕ)
  | submitFailed
  | confirmFailed
deriving DecidableEq

/-- The `catch` branch of `executeBatch`: `unshift` the drained batch back
to the front of the pool (ahead of intents enqueued meanwhile) and set
status `ERROR`. -/
def execFail (r : AegisRelayer) (batch : List Intent) : AegisRelayer :=
  { r with
    intentPool := batch ++ r.intentPool,
    state := { r.state with status := .ERROR } }

/-- The remainder of `executeBatch()` after the drain, applied to the engine
state reached when the settlement outcome arrives: the vault-balance check
(`vaultBal < totalValue` throws), the success path (record `lastBatch`,
bump both counters, set status from the current pool size), the `catch`
path (`execFail`), and the `finally` block (`isExecuting = false` followed
by `syncState`; the 10 s timer it schedules is `cooldownExpire` below). -/
def execFinish (r : AegisRelayer) (batch : List Intent) (vaultBal : ℕ)
    (res : SettlementResult) : AegisRelayer :=
  let totalValue := batchTotal batch
  let r1 :=
    if vaultBal < totalValue then execFail r batch
    else
      match res with
      | .confirmed txh t =>
          { r with state :=
              { r.state with
                lastBatch :=
                  { txHash := some txh, batchSize := batch.length,
                    totalValue := totalValue, executedAt := some t },
                totalBatchesExecuted := r.state.totalBatchesExecuted + 1,
                totalIntentsProcessed := r.state.totalIntentsProcessed + batch.length,
                status := if r.intentPool = [] then BatchStatus.IDLE else .POOLING } }
      | _ => execFail r batch
  syncState { r1 with isExecuting := false }

/-- The callback that `executeBatch`'s `finally` block schedules 10 seconds
later when intents are waiting (`setTimeout(() => { this.isExecuting =
false; }, 10000)`).  Note the `finally` block itself has already assigned
`isExecuting = false` synchronously, so this callback re-assigns a value
that is already `false`. -/
def cooldownExpire (r : AegisRelayer) : AegisRelayer := { r with isExecuting := false }

/-- `getStatus()` on the value level: `syncState` then a copy of `state`.
(The reference-sharing of the spread copy is modelled separately by the
heap-level model below.) -/
def getStatus (r : AegisRelayer) : AegisRelayer × RelayerState :=
  let r1 := syncState r
  (r1, r1.state)

/-! ## Heap-level model of array sharing (`getStatus` / `syncState`)

`getStatus()` returns `{ ...this.state }`: a shallow copy whose
`pooledIntents` field is the same array object as `state.pooledIntents`.
Whether a caller's snapshot can be retroactively mutated therefore depends
on which array objects the engine writes in place.  The source mutates the
`intentPool` array in place (`push`, `splice`, `unshift`) but always
*replaces* `state.pooledIntents` with a freshly allocated copy
(`[...this.intentPool]` in `syncState`), never writing into an existing
copy.  To verify this, the model below makes the arrays heap cells: the
engine state holds a cell index (reference) for the live pool and one for
the current `state.pooledIntents` copy, every in-place array write goes to
the pool's cell, and `syncState` allocates a fresh cell for the copy. -/

/-- A heap of intent arrays; a reference is an index into `cells`. -/
structure Heap where
  cells : List (List Intent)
deriving DecidableEq

/-- Dereference (out-of-range reads return `[]`; the invariant below keeps
every live reference in range). -/
def Heap.read (h : Heap) (r : ℕ) : List Intent := h.cells.getD r []

/-- In-place mutation of the array behind reference `r`
(`push` / `splice` / `unshift` on `this.intentPool`). -/
def Heap.write (h : Heap) (r : ℕ) (v : List Intent) : Heap := ⟨h.cells.set r v⟩

/-- Allocation of a fresh array (`[...this.intentPool]`); the fresh
reference is `h.cells.length`. -/
def Heap.alloc (h : Heap) (v : List Intent) : Heap := ⟨h.cells ++ [v]⟩

/-- The engine state with the two arrays lifted to heap references:
`poolRef` is `this.intentPool` (fixed for the object's lifetime, mutated in
place) and `pooledRef` is the current `this.state.pooledIntents` copy
(re-pointed to a fresh cell by every `syncState`). -/
structure HRelayer where
  heap : Heap
  poolRef : ℕ
  pooledRef : ℕ
  status : BatchStatus
  lastBatch : LastBatch
  totalBatchesExecuted : ℕ
  totalIntentsProcessed : ℕ
  isExecuting : Bool
deriving DecidableEq

/-- The constructor's heap state: cell 0 is the (empty) live pool, cell 1
the initial `state.pooledIntents` array. -/
def HRelayer.mk0 : HRelayer :=
  { heap := ⟨[[], []]⟩,
    poolRef := 0,
    pooledRef := 1,
    status := .IDLE,
    lastBatch := { txHash := none, batchSize := 0, totalValue := 0, executedAt := none },
    totalBatchesExecuted := 0,
    totalIntentsProcessed := 0,
    isExecuting := false }

/-- `syncState()` at the heap level: allocate a fresh copy of the live pool,
point `state.pooledIntents` at it, and recompute the status with the
`EXECUTING`/`ERROR` stickiness rule. -/
def syncStateH (r : HRelayer) : HRelayer :=
  let pool := r.heap.read r.poolRef
  { r with
    heap := r.heap.alloc pool,
    pooledRef := r.heap.cells.length,
    status :=
      if r.status = .EXECUTING ∨ r.status = .ERROR then r.status
      else if pool = [] then BatchStatus.IDLE else .POOLING }

/-- `executeBatch`'s synchronous prefix at the heap level: guard, flags,
drain of the pool cell, `syncState`. -/
def execBeginH (r : HRelayer) : HRelayer × List Intent :=
  if r.isExecuting = true ∨ r.heap.read r.poolRef = [] then (r, [])
  else
    let r1 := { r with isExecuting := true, status := BatchStatus.EXECUTING }
    let batch := r1.heap.read r1.poolRef
    let r2 := syncStateH { r1 with heap := r1.heap.write r1.poolRef [] }
    (r2, batch)

/-- `handleIntent` at the heap level: `push` onto the pool cell,
`syncState`, threshold trigger. -/
def handleIntentH (threshold : ℕ) (r : HRelayer) (i : Intent) : HRelayer :=
  let r1 := { r with heap := r.heap.write r.poolRef (r.heap.read r.poolRef ++ [i]) }
  let r2 := syncStateH r1
  if threshold ≤ (r2.heap.read r2.poolRef).length then (execBeginH r2).1 else r2

/-- The `catch` branch at the heap level: `unshift` the batch onto the pool
cell and set `ERROR`. -/
def execFailH (r : HRelayer) (batch : List Intent) : HRelayer :=
  { r with
    heap := r.heap.write r.poolRef (batch ++ r.heap.read r.poolRef),
    status := .ERROR }

/-- The post-drain remainder of `executeBatch` at the heap level (balance
check, success path, `catch`, `finally`). -/
def execFinishH (r : HRelayer) (batch : List Intent) (vaultBal : ℕ)
    (res : SettlementResult) : HRelayer :=
  let totalValue := batchTotal batch
  let r1 :=
    if vaultBal < totalValue then execFailH r batch
    else
      match res with
      | .confirmed txh t =>
          { r with
            lastBatch :=
              { txHash := some txh, batchSize := batch.length,
                totalValue := totalValue, executedAt := some t },
            totalBatchesExecuted := r.totalBatchesExecuted + 1,
            totalIntentsProcessed := r.totalIntentsProcessed + batch.length,
            status := if r.heap.read r.poolRef = [] then BatchStatus.IDLE else .POOLING }
      | _ => execFailH r batch
  syncStateH { r1 with isExecuting := false }

/-- The snapshot `{ ...this.state }` returned by `getStatus()`: value copies
of the scalar fields, but the `pooledIntents` field is the shared array
*reference*.  (`lastBatch` is likewise a shared object reference in the
source, but the engine only ever replaces `state.lastBatch` wholesale —
line 254 — and never writes into an existing `lastBatch` object, so value
semantics for it coincide; the pool array is the reference whose in-place
mutation the specification worries about.) -/
structure RelayerSnapshot where
  status : BatchStatus
  pooledRef : ℕ
  lastBatch : LastBatch
  totalBatchesExecuted : ℕ
  totalIntentsProcessed : ℕ
deriving DecidableEq

/-- `getStatus()` at the heap level: `syncState`, then the shallow copy. -/
def getStatusH (r : HRelayer) : HRelayer × RelayerSnapshot :=
  let r1 := syncStateH r
  (r1,
    { status := r1.status,
      pooledRef := r1.pooledRef,
      lastBatch := r1.lastBatch,
      totalBatchesExecuted := r1.totalBatchesExecuted,
      totalIntentsProcessed := r1.totalIntentsProcessed })

/-- The engine mutations that can run after a snapshot was handed out: an
intent arrival, the drain prefix of an execution, the completion of an
execution (counter updates, retry re-insertion), the cooldown timer
callback, and another status read.  (The block-listener predictor update
touches only predictor state and, when it triggers, funnels into
`execBegin`, so it is covered by these.) -/
inductive HOp where
  | enqueue (threshold : ℕ) (i : Intent)
  | execBegin
  | execFinish (batch : List Intent) (vaultBal : ℕ) (res : SettlementResult)
  | cooldown
  | getStatus
deriving DecidableEq

/-- One engine mutation at the heap level. -/
def stepH (r : HRelayer) : HOp → HRelayer
  | .enqueue t i => handleIntentH t r i
  | .execBegin => (execBeginH r).1
  | .execFinish b v res => execFinishH r b v res
  | .cooldown => { r with isExecuting := false }
  | .getStatus => (getStatusH r).1

/-- Any interleaving of later engine mutations. -/
def runH (r : HRelayer) (ops : List HOp) : HRelayer := ops.foldl stepH r

/-- Well-formedness: the live pool reference is a real heap cell. -/
def HInv (r : HRelayer) : Prop := r.poolRef < r.heap.cells.length

instance (r : HRelayer) : Decidable (HInv r) := by
  unfold HInv; infer_instance

/-! ## Predictor lemmas -/

lemma trainModel_historicalFees (σ : ℚ → ℚ) (p : AIGasPredictor) :
    (p.trainModel σ).historicalFees = p.historicalFees := by
  unfold AIGasPredictor.trainModel
  exact rfl

lemma trainModel_isTrained (σ : ℚ → ℚ) (p : AIGasPredictor) :
    (p.trainModel σ).isTrained = true := by
  simp only [AIGasPredictor.trainModel]

/-- The window after one absorption: append, then evict the head when the
capacity is exceeded.  (The conditional training pass leaves the window
untouched.) -/
lemma add_fees (σ : ℚ → ℚ) (p : AIGasPredictor) (f : ℕ) :
    (p.addBlockDataAndTrain σ f).historicalFees =
      if windowSize < p.historicalFees.length + 1
      then (p.historicalFees ++ [gweiOfWei f]).tail
      else p.historicalFees ++ [gweiOfWei f] := by
  unfold AIGasPredictor.addBlockDataAndTrain
  simp only [List.length_append, List.length_singleton]
  by_cases h1 : windowSize < p.historicalFees.length + 1 <;>
    simp only [h1, if_true, if_false] <;>
    split <;>
    simp only [trainModel_historicalFees]

/-- The window length after one absorption. -/
lemma add_length (σ : ℚ → ℚ) (p : AIGasPredictor) (f : ℕ) :
    (p.addBlockDataAndTrain σ f).historicalFees.length =
      if windowSize < p.historicalFees.length + 1
      then p.historicalFees.length
      else p.historicalFees.length + 1 := by
  rw [add_fees]
  by_cases h1 : windowSize < p.historicalFees.length + 1 <;>
    simp [h1, List.length_tail]

/-- The trained flag after one absorption: set when the resulting window is
at capacity, otherwise unchanged. -/
lemma add_isTrained (σ : ℚ → ℚ) (p : AIGasPredictor) (f : ℕ) :
    ((p.addBlockDataAndTrain σ f).isTrained = true ↔
      (p.isTrained = true ∨ (p.addBlockDataAndTrain σ f).historicalFees.length = windowSize)) := by
  simp only [AIGasPredictor.addBlockDataAndTrain]
  split <;> split <;>
    rename_i hTrain <;>
    simp only [trainModel_isTrained, trainModel_historicalFees, eq_self_iff_true, true_iff] <;>
    tauto

/-- One absorption step, counted: window length follows `min (k+1)
windowSize` and the trained flag is set exactly from sample `windowSize`
on, where `k` counts the samples absorbed so far. -/
lemma add_inv_step (σ : ℚ → ℚ) (p : AIGasPredictor) (f : ℕ) (k : ℕ)
    (hlen : p.historicalFees.length = min k windowSize)
    (htr : p.isTrained = true ↔ windowSize ≤ k) :
    ((p.addBlockDataAndTrain σ f).historicalFees.length = min (k + 1) windowSize) ∧
    ((p.addBlockDataAndTrain σ f).isTrained = true ↔ windowSize ≤ k + 1) := by
  have hws : windowSize = 10 := rfl
  have hL := add_length σ p f
  have hT := add_isTrained σ p f
  constructor
  · rw [hL]
    split <;> omega
  · rw [hT, htr]
    rw [hL]
    constructor
    · intro h
      rcases h with h | h
      · omega
      · split at h <;> omega
    · intro h
      by_cases hk : windowSize ≤ k
      · exact Or.inl hk
      · right
        split <;> omega

lemma addAll_inv (σ : ℚ → ℚ) :
    ∀ (l : List ℕ) (p : AIGasPredictor) (k : ℕ),
      p.historicalFees.length = min k windowSize →
      (p.isTrained = true ↔ windowSize ≤ k) →
      ((p.addAll σ l).historicalFees.length = min (k + l.length) windowSize ∧
        ((p.addAll σ l).isTrained = true ↔ windowSize ≤ k + l.length)) := by
  intro l
  induction l with
  | nil =>
    intro p k h1 h2
    simpa [AIGasPredictor.addAll] using ⟨h1, h2⟩
  | cons f l ih =>
    intro p k h1 h2
    have step := add_inv_step σ p f k h1 h2
    have h3 := ih (p.addBlockDataAndTrain σ f) (k + 1) step.1 step.2
    have harith : k + (f :: l).length = k + 1 + l.length := by
      simp [List.length_cons]; omega
    rw [harith]
    simpa [AIGasPredictor.addAll] using h3

/-- Lower and upper bound of the target label, for a positive window mean. -/
lemma targetScoreOf_bounds (avg c : ℚ) (h : 0 < avg) :
    1 / 100 ≤ targetScoreOf avg c ∧ targetScoreOf avg c ≤ 99 / 100 := by
  unfold targetScoreOf
  split_ifs with hc
  · constructor
    · refine le_min (by norm_num) ?_
      have hd : 0 < (avg - c) / avg := div_pos (by linarith) h
      linarith
    · exact min_le_left _ _
  · constructor
    · exact le_max_left _ _
    · refine max_le (by norm_num) ?_
      have hd : 0 ≤ (c - avg) / avg := div_nonneg (by linarith) h.le
      linarith

/-- The target label is antitone in the latest sample (for a fixed positive
mean): the further the latest sample lies below the mean, the closer the
label is pulled to 0.99, and the further above, the closer to 0.01. -/
lemma targetScoreOf_antitone (avg : ℚ) (h : 0 < avg) {c1 c2 : ℚ} (hc : c1 ≤ c2) :
    targetScoreOf avg c2 ≤ targetScoreOf avg c1 := by
  unfold targetScoreOf
  split_ifs with h2 h1 h1
  · -- both samples below the mean
    refine min_le_min le_rfl ?_
    have hd : (avg - c2) / avg ≤ (avg - c1) / avg := by gcongr
    linarith
  · exact absurd (lt_of_le_of_lt hc h2) h1
  · -- c1 below the mean, c2 at or above it
    have hub : (1 : ℚ) / 2 ≤ min (99 / 100) (1 / 2 + (avg - c1) / avg * 2) := by
      refine le_min (by norm_num) ?_
      have hd : 0 < (avg - c1) / avg := div_pos (by linarith) h
      linarith
    have hlb : max ((1 : ℚ) / 100) (1 / 2 - (c2 - avg) / avg * 2) ≤ 1 / 2 := by
      refine max_le (by norm_num) ?_
      have hd : 0 ≤ (c2 - avg) / avg := div_nonneg (by linarith) h.le
      linarith
    linarith
  · -- both samples at or above the mean
    refine max_le_max le_rfl ?_
    have hd : (c1 - avg) / avg ≤ (c2 - avg) / avg := by gcongr
    linarith

/-! ## Predictor claim theorems -/

/-- C5.  While fewer than `windowSize = 10` samples have been absorbed the
predictor is COLD: `shouldExecuteBatch` returns `(false, 0)` for every fee
argument.  The `isTrained` (READY) flag holds exactly when at least
`windowSize` samples have been absorbed, i.e. the COLD→READY transition
happens at the absorption that first fills the window — the step whose
training pass `trainModel` sets the flag. -/
theorem predictor_cold_until_full (σ : ℚ → ℚ) (net0 : SimpleNeuralNetwork)
    (feesWei : List ℕ) :
    (feesWei.length < windowSize →
      ∀ cur : ℕ,
        ((AIGasPredictor.mk0 net0).addAll σ feesWei).shouldExecuteBatch σ cur = (false, 0))
    ∧ (((AIGasPredictor.mk0 net0).addAll σ feesWei).isTrained = true ↔
        windowSize ≤ feesWei.length) := by
  have hinv := addAll_inv σ feesWei (AIGasPredictor.mk0 net0) 0
    (by simp [AIGasPredictor.mk0]) (by simp [AIGasPredictor.mk0, windowSize])
  constructor
  · intro hlt cur
    have hnt : ((AIGasPredictor.mk0 net0).addAll σ feesWei).isTrained = false := by
      have h1 : ¬ (((AIGasPredictor.mk0 net0).addAll σ feesWei).isTrained = true) := by
        intro h
        have := hinv.2.mp h
        omega
      exact Bool.not_eq_true _ |>.mp h1
    unfold AIGasPredictor.shouldExecuteBatch
    rw [hnt]
    simp
  · have h0 : 0 + feesWei.length = feesWei.length := by omega
    rw [h0] at hinv
    exact hinv.2

/-- Concrete network parameters for witnesses (the claim theorems hold for
every parameter set, so any concrete one will do). -/
def netEx : SimpleNeuralNetwork :=
  { weightsInputHidden := [], weightsHiddenOutput := [], biasHidden := [], biasOutput := [] }

/-- C5 witness: one absorbed sample (1 gwei) leaves the predictor COLD. -/
theorem predictor_cold_until_full_witness :
    ((AIGasPredictor.mk0 netEx).addAll id [1000000000]).shouldExecuteBatch id 5 = (false, 0) :=
  (predictor_cold_until_full id netEx [1000000000]).1 (by decide) 5

/-- A predictor with a full 10-sample window, for witnesses. -/
def pFullEx : AIGasPredictor :=
  { net := netEx, isTrained := true,
    historicalFees := [1, 2, 3, 4, 5, 6, 7, 8, 9, 10] }

/-- C8.  The sliding window never exceeds its fixed capacity of 10 samples
(for every absorption sequence from the constructor state), and an
absorption at capacity evicts the oldest sample: the new window is the old
window's tail followed by the new sample (FIFO). -/
theorem predictor_window_capacity_fifo (σ : ℚ → ℚ) (net0 : SimpleNeuralNetwork) :
    (∀ feesWei : List ℕ,
        ((AIGasPredictor.mk0 net0).addAll σ feesWei).historicalFees.length ≤ windowSize)
    ∧ (∀ (p : AIGasPredictor) (f : ℕ), p.historicalFees.length = windowSize →
        (p.addBlockDataAndTrain σ f).historicalFees
          = p.historicalFees.tail ++ [gweiOfWei f]) := by
  constructor
  · intro l
    have hinv := addAll_inv σ l (AIGasPredictor.mk0 net0) 0
      (by simp [AIGasPredictor.mk0]) (by simp [AIGasPredictor.mk0, windowSize])
    rw [hinv.1]
    omega
  · intro p f hp
    rw [add_fees]
    have h1 : windowSize < p.historicalFees.length + 1 := by omega
    rw [if_pos h1]
    have hne : p.historicalFees ≠ [] := by
      intro h
      rw [h] at hp
      simp [windowSize] at hp
    cases hfees : p.historicalFees with
    | nil => exact absurd hfees hne
    | cons x xs => simp

/-- C8 witness: capacity bound after 11 absorptions, and FIFO eviction on a
concrete full window. -/
theorem predictor_window_capacity_fifo_witness :
    ((AIGasPredictor.mk0 netEx).addAll id
        [1, 2, 3, 4, 5, 6, 7, 8, 9, 10, 11]).historicalFees.length ≤ windowSize
    ∧ (pFullEx.addBlockDataAndTrain id 2000000000).historicalFees
        = pFullEx.historicalFees.tail ++ [gweiOfWei 2000000000] :=
  ⟨(predictor_window_capacity_fifo id netEx).1 [1, 2, 3, 4, 5, 6, 7, 8, 9, 10, 11],
   (predictor_window_capacity_fifo id netEx).2 pFullEx 2000000000 (by decide)⟩

/-- C7.  For a full window of positive fee samples the training pass's
target label lies in `[0.01, 0.99]`; for a fixed (positive) window mean the
label is antitone in the latest sample — pulled toward 0.99 the further the
sample is below the mean and toward 0.01 the further above; and the
normalization range degenerates to 1 when the window max equals the window
min, so the normalization never divides by zero.  (Positivity of the
samples holds at every call site: the block listener only forwards blocks
with a truthy — hence nonzero — `baseFeePerGas`.) -/
theorem trainModel_target_label (fees : List ℚ) (hlen : fees.length = windowSize)
    (hpos : ∀ x ∈ fees, 0 < x) :
    (1 / 100 ≤ targetScoreOf (fees.sum / (windowSize : ℚ)) (fees.getD (windowSize - 1) 0)
      ∧ targetScoreOf (fees.sum / (windowSize : ℚ)) (fees.getD (windowSize - 1) 0) ≤ 99 / 100)
    ∧ (∀ c1 c2 : ℚ, c1 ≤ c2 →
        targetScoreOf (fees.sum / (windowSize : ℚ)) c2
          ≤ targetScoreOf (fees.sum / (windowSize : ℚ)) c1)
    ∧ (listMax fees = listMin fees → feeRange fees = 1) := by
  have hne : fees ≠ [] := by
    intro h
    rw [h] at hlen
    simp [windowSize] at hlen
  have hsum : 0 < fees.sum := List.sum_pos fees hpos hne
  have havg : 0 < fees.sum / (windowSize : ℚ) := by
    apply div_pos hsum
    norm_num [windowSize]
  refine ⟨targetScoreOf_bounds _ _ havg, fun c1 c2 hc => targetScoreOf_antitone _ havg hc, ?_⟩
  intro h
  unfold feeRange
  rw [h, sub_self]
  simp

/-- A concrete full window of positive samples for the C7 witness. -/
def feesEx : List ℚ := [1, 2, 3, 4, 5, 6, 7, 8, 9, 10]

/-- C7 witness: the target label bounds on a concrete positive window. -/
theorem trainModel_target_label_witness :
    1 / 100 ≤ targetScoreOf (feesEx.sum / (windowSize : ℚ)) (feesEx.getD (windowSize - 1) 0)
    ∧ targetScoreOf (feesEx.sum / (windowSize : ℚ)) (feesEx.getD (windowSize - 1) 0) ≤ 99 / 100 :=
  (trainModel_target_label feesEx (by decide) (by decide)).1

/-- C10.  `shouldExecuteBatch` never reads its `currentFeeWei` argument:
for a fixed predictor state (window and model parameters) it returns the
same `(execute, score)` pair for every fee argument — the decision depends
only on the stored window. -/
theorem shouldExecuteBatch_ignores_fee (σ : ℚ → ℚ) (p : AIGasPredictor) (f1 f2 : ℕ) :
    p.shouldExecuteBatch σ f1 = p.shouldExecuteBatch σ f2 := rfl

/-! ## Relayer engine lemmas -/

/-- `executeBatch`'s synchronous prefix on the active path: when no
execution is in flight and the pool is non-empty, it drains the whole pool,
sets the executing flag and `EXECUTING` status, and clears the pooled-intent
mirror. -/
lemma execBegin_drains (r : AegisRelayer) (hexec : r.isExecuting = false)
    (hne : r.intentPool ≠ []) :
    execBegin r =
      ({ intentPool := [],
         isExecuting := true,
         state := { r.state with status := .EXECUTING, pooledIntents := [] } },
       r.intentPool) := by
  unfold execBegin syncState
  rw [if_neg]
  · simp
  · simp [hexec, hne]

/-- An intent arriving while an execution is in flight is appended to the
pool and mirrored into the state, but the `EXECUTING` status is sticky and
the threshold trigger's `executeBatch` call short-circuits on the executing
flag, so nothing else changes. -/
lemma handleIntent_while_executing (threshold : ℕ) (r : AegisRelayer) (i : Intent)
    (hexec : r.isExecuting = true) (hst : r.state.status = .EXECUTING) :
    (handleIntent threshold r i).1 =
      { r with intentPool := r.intentPool ++ [i],
               state := { r.state with pooledIntents := r.intentPool ++ [i] } } := by
  unfold handleIntent execBegin syncState
  simp only [hst, hexec]
  split <;> simp

/-- Folding any arrival sequence through `handleIntent` while an execution
is in flight: the arrivals are appended in order, the flag and status stay,
and the last-batch summary and both counters are untouched. -/
lemma enqueueAll_while_executing (threshold : ℕ) :
    ∀ (arrivals : List Intent) (r : AegisRelayer),
      r.isExecuting = true → r.state.status = .EXECUTING →
      ((enqueueAll threshold r arrivals).intentPool = r.intentPool ++ arrivals
        ∧ (enqueueAll threshold r arrivals).isExecuting = true
        ∧ (enqueueAll threshold r arrivals).state.status = .EXECUTING
        ∧ (enqueueAll threshold r arrivals).state.lastBatch = r.state.lastBatch
        ∧ (enqueueAll threshold r arrivals).state.totalBatchesExecuted
            = r.state.totalBatchesExecuted
        ∧ (enqueueAll threshold r arrivals).state.totalIntentsProcessed
            = r.state.totalIntentsProcessed) := by
  intro arrivals
  induction arrivals with
  | nil =>
    intro r hexec hst
    simp [enqueueAll, hexec, hst]
  | cons i l ih =>
    intro r hexec hst
    have hstep := handleIntent_while_executing threshold r i hexec hst
    have hfold : enqueueAll threshold r (i :: l)
        = enqueueAll threshold (handleIntent threshold r i).1 l := rfl
    rw [hfold, hstep]
    have h2 := ih
      { r with intentPool := r.intentPool ++ [i],
               state := { r.state with pooledIntents := r.intentPool ++ [i] } }
      hexec hst
    simpa [List.append_assoc] using h2

/-- The failure path of `executeBatch`'s completion (insufficient vault
balance, submission error, or confirmation error): the drained batch is
re-inserted at the pool head, the status is set to `ERROR` (which the
`finally` block's `syncState` keeps, as `ERROR` is sticky), and the
executing flag is cleared. -/
lemma execFinish_fail (r : AegisRelayer) (batch : List Intent) (vaultBal : ℕ)
    (res : SettlementResult)
    (hfail : vaultBal < batchTotal batch ∨ res = .submitFailed ∨ res = .confirmFailed) :
    execFinish r batch vaultBal res =
      { intentPool := batch ++ r.intentPool,
        isExecuting := false,
        state := { r.state with
                   status := .ERROR,
                   pooledIntents := batch ++ r.intentPool } } := by
  unfold execFinish execFail syncState
  by_cases hb : vaultBal < batchTotal batch
  · simp [hb]
  · rcases hfail with hfail | hfail | hfail
    · exact absurd hfail hb
    · subst hfail
      simp [hb]
    · subst hfail
      simp [hb]

/-- The success path of `executeBatch`'s completion: last-batch summary
recorded, both counters bumped, status recomputed from the pool at that
moment (`POOLING` when non-empty, `IDLE` otherwise — a computation the
`finally` block's `syncState` repeats with the same result), flag
cleared. -/
lemma execFinish_success (r : AegisRelayer) (batch : List Intent) (vaultBal : ℕ)
    (txh : String) (t : ℕ) (hbal : ¬ vaultBal < batchTotal batch) :
    execFinish r batch vaultBal (.confirmed txh t) =
      { intentPool := r.intentPool,
        isExecuting := false,
        state := { status := if r.intentPool = [] then BatchStatus.IDLE else .POOLING,
                   pooledIntents := r.intentPool,
                   lastBatch := { txHash := some txh, batchSize := batch.length,
                                  totalValue := batchTotal batch, executedAt := some t },
                   totalBatchesExecuted := r.state.totalBatchesExecuted + 1,
                   totalIntentsProcessed := r.state.totalIntentsProcessed + batch.length } } := by
  unfold execFinish syncState
  by_cases hp : r.intentPool = [] <;> simp [hbal, hp]

/-! ## Relayer claim theorems -/

/-- C1 (amended).  For every intent enqueued via `handleIntent` *while no
execution is in flight*: if the pool size after the append reaches the
configured size threshold, batch execution is triggered immediately — the
trigger depends only on the pool size, never on the predictor, which
`handleIntent` does not consult — and the batch drained by that execution
is the whole pool including the triggering intent; after the drain the pool
is empty.  (When an execution is already in flight the triggered
`executeBatch` call short-circuits instead: see the counterexample.) -/
theorem handleIntent_threshold_triggers_drain (threshold : ℕ) (r : AegisRelayer) (i : Intent)
    (hexec : r.isExecuting = false)
    (hthr : threshold ≤ (r.intentPool ++ [i]).length) :
    (handleIntent threshold r i).2 = some (r.intentPool ++ [i])
    ∧ i ∈ r.intentPool ++ [i]
    ∧ (handleIntent threshold r i).1.intentPool = [] := by
  have hpool : (syncState { r with intentPool := r.intentPool ++ [i] }).intentPool
      = r.intentPool ++ [i] := rfl
  have hex1 : (syncState { r with intentPool := r.intentPool ++ [i] }).isExecuting = false :=
    hexec
  have hne : (syncState { r with intentPool := r.intentPool ++ [i] }).intentPool ≠ [] := by
    rw [hpool]
    simp
  have hdrain := execBegin_drains _ hex1 hne
  unfold handleIntent
  rw [if_pos (by rw [hpool]; exact hthr)]
  rw [hdrain]
  exact ⟨by rw [hpool], by simp, rfl⟩

/-- A demo intent with index `n`. -/
def iEx (n : ℕ) : Intent :=
  { sender := "0xaaa", receiver := "0xbbb", amount := 1, intentIndex := n,
    receivedAt := 0, txHash := "0xccc", blockNumber := 0 }

/-- A reachable engine state with an execution in flight (`isExecuting`,
status `EXECUTING`) and four intents that arrived during it. -/
def rInFlight : AegisRelayer :=
  { intentPool := [iEx 0, iEx 1, iEx 2, iEx 3],
    isExecuting := true,
    state := { status := .EXECUTING,
               pooledIntents := [iEx 0, iEx 1, iEx 2, iEx 3],
               lastBatch := { txHash := none, batchSize := 0, totalValue := 0,
                              executedAt := none },
               totalBatchesExecuted := 0,
               totalIntentsProcessed := 0 } }

/-- C1 counterexample.  With an execution in flight and threshold 5, a
fifth intent makes the pool size reach the threshold, `handleIntent` does
invoke `executeBatch` — but the execution drains nothing (the guard
short-circuits on the executing flag): the "drained batch" is empty, does
not contain the triggering intent, and the pool is left holding all five
intents rather than empty. -/
theorem handleIntent_during_execution_drops_trigger :
    5 ≤ (rInFlight.intentPool ++ [iEx 4]).length
    ∧ (handleIntent 5 rInFlight (iEx 4)).2 = some []
    ∧ (handleIntent 5 rInFlight (iEx 4)).1.intentPool
        = [iEx 0, iEx 1, iEx 2, iEx 3, iEx 4] := by
  refine ⟨by decide, rfl, rfl⟩

/-- A pool of four 1-wei intents with no execution in flight (threshold 5),
used as a concrete pre-state in witnesses. -/
def rPool4 : AegisRelayer :=
  { intentPool := [iEx 0, iEx 1, iEx 2, iEx 3],
    isExecuting := false,
    state := { status := .POOLING,
               pooledIntents := [iEx 0, iEx 1, iEx 2, iEx 3],
               lastBatch := { txHash := none, batchSize := 0, totalValue := 0,
                              executedAt := none },
               totalBatchesExecuted := 0,
               totalIntentsProcessed := 0 } }

/-- C1 witness: the fifth intent triggers a drain of all five. -/
theorem handleIntent_threshold_triggers_drain_witness :
    (handleIntent 5 rPool4 (iEx 4)).2 = some (rPool4.intentPool ++ [iEx 4])
    ∧ iEx 4 ∈ rPool4.intentPool ++ [iEx 4]
    ∧ (handleIntent 5 rPool4 (iEx 4)).1.intentPool = [] :=
  handleIntent_threshold_triggers_drain 5 rPool4 (iEx 4) rfl (by decide)

/-- C2.  For every execution attempt that fails — insufficient vault
balance, submission error, or confirmation error — the drained sequence is
re-inserted at the head of the pool in its original order, ahead of the
intents enqueued during the attempt, and the status is set to `ERROR`:
immediately after the failure the pool is exactly the pre-drain sequence
followed by the arrivals. -/
theorem failed_execution_restores_pool (threshold : ℕ) (r : AegisRelayer)
    (arrivals : List Intent) (vaultBal : ℕ) (res : SettlementResult)
    (hexec : r.isExecuting = false) (hne : r.intentPool ≠ [])
    (hfail : vaultBal < batchTotal r.intentPool
      ∨ res = .submitFailed ∨ res = .confirmFailed) :
    (execFinish (enqueueAll threshold (execBegin r).1 arrivals) (execBegin r).2
        vaultBal res).intentPool
      = r.intentPool ++ arrivals
    ∧ (execFinish (enqueueAll threshold (execBegin r).1 arrivals) (execBegin r).2
        vaultBal res).state.status = .ERROR := by
  rw [execBegin_drains r hexec hne]
  have harr := enqueueAll_while_executing threshold arrivals
    { intentPool := [],
      isExecuting := true,
      state := { r.state with status := .EXECUTING, pooledIntents := [] } }
    rfl rfl
  rw [execFinish_fail _ _ _ _ hfail]
  refine ⟨?_, rfl⟩
  rw [harr.1]
  simp

/-- C2 witness: a vault-balance failure with one intent arriving during
the attempt. -/
theorem failed_execution_restores_pool_witness :
    (execFinish (enqueueAll 5 (execBegin rPool4).1 [iEx 9]) (execBegin rPool4).2
        0 .submitFailed).intentPool
      = rPool4.intentPool ++ [iEx 9]
    ∧ (execFinish (enqueueAll 5 (execBegin rPool4).1 [iEx 9]) (execBegin rPool4).2
        0 .submitFailed).state.status = .ERROR :=
  failed_execution_restores_pool 5 rPool4 [iEx 9] 0 .submitFailed rfl (by decide)
    (Or.inr (Or.inl rfl))

/-- C3 is about the cooldown the source *intends* after a failed execution
("wait 10s to avoid spamming the RPC").  The code's `finally` block runs
`this.isExecuting = false` synchronously and only then schedules the 10 s
timer — whose callback assigns `false` to the already-`false` flag.  This
theorem exhibits the resulting behaviour on a concrete failed execution:
immediately after the failure the flag is already clear, a new
`executeBatch` entered with no intervening cooldown step reaches the
`EXECUTING` state, and the timer callback (`cooldownExpire`) is an identity
on the post-failure state. -/
theorem no_cooldown_after_failed_execution :
    (execFinish (execBegin rPool4).1 (execBegin rPool4).2 0 .submitFailed).isExecuting = false
    ∧ (execBegin (execFinish (execBegin rPool4).1 (execBegin rPool4).2
        0 .submitFailed)).1.isExecuting = true
    ∧ (execBegin (execFinish (execBegin rPool4).1 (execBegin rPool4).2
        0 .submitFailed)).1.state.status = .EXECUTING
    ∧ cooldownExpire (execFinish (execBegin rPool4).1 (execBegin rPool4).2 0 .submitFailed)
        = execFinish (execBegin rPool4).1 (execBegin rPool4).2 0 .submitFailed := by
  refine ⟨rfl, rfl, rfl, rfl⟩

/-- C4.  For every batch execution that runs to a confirmed settlement:
`totalBatchesExecuted` goes up by exactly one, `totalIntentsProcessed` by
exactly the batch size, the last-batch summary records the transaction
hash, batch size, aggregate amount and completion time, and the status
becomes `POOLING` when intents arrived during the attempt (the pool is
non-empty at that moment) and `IDLE` otherwise. -/
theorem successful_execution_updates_state (threshold : ℕ) (r : AegisRelayer)
    (arrivals : List Intent) (vaultBal : ℕ) (txh : String) (t : ℕ)
    (hexec : r.isExecuting = false) (hne : r.intentPool ≠ [])
    (hbal : ¬ vaultBal < batchTotal r.intentPool) :
    (execFinish (enqueueAll threshold (execBegin r).1 arrivals) (execBegin r).2
        vaultBal (.confirmed txh t)).state.totalBatchesExecuted
      = r.state.totalBatchesExecuted + 1
    ∧ (execFinish (enqueueAll threshold (execBegin r).1 arrivals) (execBegin r).2
        vaultBal (.confirmed txh t)).state.totalIntentsProcessed
      = r.state.totalIntentsProcessed + r.intentPool.length
    ∧ (execFinish (enqueueAll threshold (execBegin r).1 arrivals) (execBegin r).2
        vaultBal (.confirmed txh t)).state.lastBatch
      = { txHash := some txh, batchSize := r.intentPool.length,
          totalValue := batchTotal r.intentPool, executedAt := some t }
    ∧ (execFinish (enqueueAll threshold (execBegin r).1 arrivals) (execBegin r).2
        vaultBal (.confirmed txh t)).state.status
      = (if arrivals = [] then BatchStatus.IDLE else .POOLING)
    ∧ (execFinish (enqueueAll threshold (execBegin r).1 arrivals) (execBegin r).2
        vaultBal (.confirmed txh t)).intentPool = arrivals := by
  rw [execBegin_drains r hexec hne]
  have harr := enqueueAll_while_executing threshold arrivals
    { intentPool := [],
      isExecuting := true,
      state := { r.state with status := .EXECUTING, pooledIntents := [] } }
    rfl rfl
  rw [execFinish_success _ _ _ _ _ hbal]
  simp only [harr.1, harr.2.2.2.1, harr.2.2.2.2.1, harr.2.2.2.2.2]
  simp

/-- C4 witness: a confirmed settlement of the four pooled intents with no
arrivals during the attempt ends with both counters bumped and status
`IDLE`. -/
theorem successful_execution_updates_state_witness :
    (execFinish (enqueueAll 5 (execBegin rPool4).1 []) (execBegin rPool4).2
        100 (.confirmed "0xddd" 42)).state.totalBatchesExecuted
      = rPool4.state.totalBatchesExecuted + 1
    ∧ (execFinish (enqueueAll 5 (execBegin rPool4).1 []) (execBegin rPool4).2
        100 (.confirmed "0xddd" 42)).state.totalIntentsProcessed
      = rPool4.state.totalIntentsProcessed + rPool4.intentPool.length
    ∧ (execFinish (enqueueAll 5 (execBegin rPool4).1 []) (execBegin rPool4).2
        100 (.confirmed "0xddd" 42)).state.lastBatch
      = { txHash := some "0xddd", batchSize := rPool4.intentPool.length,
          totalValue := batchTotal rPool4.intentPool, executedAt := some 42 }
    ∧ (execFinish (enqueueAll 5 (execBegin rPool4).1 []) (execBegin rPool4).2
        100 (.confirmed "0xddd" 42)).state.status
      = (if ([] : List Intent) = [] then BatchStatus.IDLE else .POOLING)
    ∧ (execFinish (enqueueAll 5 (execBegin rPool4).1 []) (execBegin rPool4).2
        100 (.confirmed "0xddd" 42)).intentPool = [] :=
  successful_execution_updates_state 5 rPool4 [] 100 "0xddd" 42 rfl (by decide) (by decide)

/-! ## Heap-level lemmas for the snapshot claim -/

lemma Heap.length_write (h : Heap) (r : ℕ) (v : List Intent) :
    (h.write r v).cells.length = h.cells.length := by
  simp [Heap.write]

lemma Heap.length_alloc (h : Heap) (v : List Intent) :
    (h.alloc v).cells.length = h.cells.length + 1 := by
  simp [Heap.alloc]

lemma Heap.read_write_ne (h : Heap) (r1 r2 : ℕ) (v : List Intent) (hne : r1 ≠ r2) :
    (h.write r1 v).read r2 = h.read r2 := by
  simp [Heap.write, Heap.read, List.getElem?_set_ne hne]

lemma Heap.read_alloc_lt (h : Heap) (v : List Intent) (r : ℕ) (hr : r < h.cells.length) :
    (h.alloc v).read r = h.read r := by
  simp [Heap.alloc, Heap.read, List.getElem?_append_left hr]

lemma Heap.read_alloc_fresh (h : Heap) (v : List Intent) :
    (h.alloc v).read h.cells.length = v := by
  simp [Heap.alloc, Heap.read]

/-- `syncState` only allocates: existing cells keep their contents, the
pool reference is unchanged, the heap grows. -/
lemma syncStateH_frame (s : HRelayer) (ref : ℕ) (h2 : ref < s.heap.cells.length) :
    (syncStateH s).heap.read ref = s.heap.read ref
    ∧ (syncStateH s).poolRef = s.poolRef
    ∧ s.heap.cells.length ≤ (syncStateH s).heap.cells.length := by
  unfold syncStateH
  refine ⟨Heap.read_alloc_lt _ _ _ h2, rfl, ?_⟩
  rw [Heap.length_alloc]
  omega

/-- The drain prefix writes only the pool cell (and allocates). -/
lemma execBeginH_frame (s : HRelayer) (ref : ℕ)
    (h1 : ref ≠ s.poolRef) (h2 : ref < s.heap.cells.length) :
    (execBeginH s).1.heap.read ref = s.heap.read ref
    ∧ (execBeginH s).1.poolRef = s.poolRef
    ∧ s.heap.cells.length ≤ (execBeginH s).1.heap.cells.length := by
  unfold execBeginH
  split
  · exact ⟨rfl, rfl, le_refl _⟩
  · have hw : (s.heap.write s.poolRef []).read ref = s.heap.read ref :=
      Heap.read_write_ne _ _ _ _ (Ne.symm h1)
    have hlen : ref < (s.heap.write s.poolRef []).cells.length := by
      rw [Heap.length_write]
      exact h2
    have hs := syncStateH_frame
      { s with isExecuting := true, status := BatchStatus.EXECUTING,
               heap := s.heap.write s.poolRef [] } ref hlen
    refine ⟨?_, hs.2.1, ?_⟩
    · rw [hs.1]
      exact hw
    · calc s.heap.cells.length
          = (s.heap.write s.poolRef []).cells.length := (Heap.length_write _ _ _).symm
        _ ≤ _ := hs.2.2

/-- An arriving intent writes only the pool cell (and allocates). -/
lemma handleIntentH_frame (t : ℕ) (s : HRelayer) (i : Intent) (ref : ℕ)
    (h1 : ref ≠ s.poolRef) (h2 : ref < s.heap.cells.length) :
    (handleIntentH t s i).heap.read ref = s.heap.read ref
    ∧ (handleIntentH t s i).poolRef = s.poolRef
    ∧ s.heap.cells.length ≤ (handleIntentH t s i).heap.cells.length := by
  unfold handleIntentH
  dsimp only
  have hw : (s.heap.write s.poolRef (s.heap.read s.poolRef ++ [i])).read ref
      = s.heap.read ref := Heap.read_write_ne _ _ _ _ (Ne.symm h1)
  have hlen : ref < (s.heap.write s.poolRef (s.heap.read s.poolRef ++ [i])).cells.length := by
    rw [Heap.length_write]
    exact h2
  have hs := syncStateH_frame
    { s with heap := s.heap.write s.poolRef (s.heap.read s.poolRef ++ [i]) } ref hlen
  have hs1 : ref < (syncStateH
      { s with heap := s.heap.write s.poolRef (s.heap.read s.poolRef ++ [i]) }).heap.cells.length := by
    have := hs.2.2
    rw [Heap.length_write] at this
    omega
  have hb := execBeginH_frame
    (syncStateH { s with heap := s.heap.write s.poolRef (s.heap.read s.poolRef ++ [i]) })
    ref (by rw [hs.2.1]; exact h1) hs1
  split
  · refine ⟨?_, ?_, ?_⟩
    · rw [hb.1, hs.1]
      exact hw
    · rw [hb.2.1, hs.2.1]
    · calc s.heap.cells.length
          = (s.heap.write s.poolRef (s.heap.read s.poolRef ++ [i])).cells.length :=
            (Heap.length_write _ _ _).symm
        _ ≤ _ := le_trans hs.2.2 hb.2.2
  · refine ⟨?_, hs.2.1, ?_⟩
    · rw [hs.1]
      exact hw
    · calc s.heap.cells.length
          = (s.heap.write s.poolRef (s.heap.read s.poolRef ++ [i])).cells.length :=
            (Heap.length_write _ _ _).symm
        _ ≤ _ := hs.2.2

/-- The retry re-insertion writes only the pool cell. -/
lemma execFailH_frame (s : HRelayer) (batch : List Intent) (ref : ℕ)
    (h1 : ref ≠ s.poolRef) :
    (execFailH s batch).heap.read ref = s.heap.read ref
    ∧ (execFailH s batch).poolRef = s.poolRef
    ∧ (execFailH s batch).heap.cells.length = s.heap.cells.length := by
  unfold execFailH
  exact ⟨Heap.read_write_ne _ _ _ _ (Ne.symm h1), rfl, Heap.length_write _ _ _⟩

/-- The completion of an execution writes only the pool cell (and
allocates). -/
lemma execFinishH_frame (s : HRelayer) (batch : List Intent) (vaultBal : ℕ)
    (res : SettlementResult) (ref : ℕ)
    (h1 : ref ≠ s.poolRef) (h2 : ref < s.heap.cells.length) :
    (execFinishH s batch vaultBal res).heap.read ref = s.heap.read ref
    ∧ (execFinishH s batch vaultBal res).poolRef = s.poolRef
    ∧ s.heap.cells.length ≤ (execFinishH s batch vaultBal res).heap.cells.length := by
  unfold execFinishH
  dsimp only
  have hfail := execFailH_frame s batch ref h1
  split
  · have hlen : ref < (execFailH s batch).heap.cells.length := by
      rw [hfail.2.2]
      exact h2
    have hs := syncStateH_frame { execFailH s batch with isExecuting := false } ref hlen
    refine ⟨by rw [hs.1]; exact hfail.1, by rw [hs.2.1]; exact hfail.2.1, ?_⟩
    calc s.heap.cells.length
        = (execFailH s batch).heap.cells.length := hfail.2.2.symm
      _ ≤ _ := hs.2.2
  · split
    · rename_i txh t
      have hs := syncStateH_frame
        { s with
          lastBatch :=
            { txHash := some txh, batchSize := batch.length,
              totalValue := batchTotal batch, executedAt := some t },
          totalBatchesExecuted := s.totalBatchesExecuted + 1,
          totalIntentsProcessed := s.totalIntentsProcessed + batch.length,
          status := if s.heap.read s.poolRef = [] then BatchStatus.IDLE else .POOLING,
          isExecuting := false } ref h2
      exact ⟨hs.1, hs.2.1, hs.2.2⟩
    · have hlen : ref < (execFailH s batch).heap.cells.length := by
        rw [hfail.2.2]
        exact h2
      have hs := syncStateH_frame { execFailH s batch with isExecuting := false } ref hlen
      refine ⟨by rw [hs.1]; exact hfail.1, by rw [hs.2.1]; exact hfail.2.1, ?_⟩
      calc s.heap.cells.length
          = (execFailH s batch).heap.cells.length := hfail.2.2.symm
        _ ≤ _ := hs.2.2

/-- One engine mutation writes only the live pool's cell: every other
allocated cell keeps its contents; the pool reference never moves and the
heap only grows. -/
lemma stepH_frame (s : HRelayer) (op : HOp) (ref : ℕ)
    (h1 : ref ≠ s.poolRef) (h2 : ref < s.heap.cells.length) :
    (stepH s op).heap.read ref = s.heap.read ref
    ∧ (stepH s op).poolRef = s.poolRef
    ∧ s.heap.cells.length ≤ (stepH s op).heap.cells.length := by
  cases op with
  | enqueue t i => exact handleIntentH_frame t s i ref h1 h2
  | execBegin => exact execBeginH_frame s ref h1 h2
  | execFinish b v res => exact execFinishH_frame s b v res ref h1 h2
  | cooldown => exact ⟨rfl, rfl, le_refl _⟩
  | getStatus =>
    have hs := syncStateH_frame s ref h2
    exact ⟨hs.1, hs.2.1, hs.2.2⟩

/-- Frame property over any sequence of later mutations. -/
lemma runH_frame (ops : List HOp) :
    ∀ (s : HRelayer) (ref : ℕ), ref ≠ s.poolRef → ref < s.heap.cells.length →
      (runH s ops).heap.read ref = s.heap.read ref := by
  induction ops with
  | nil =>
    intro s ref _ _
    rfl
  | cons op l ih =>
    intro s ref h1 h2
    have hstep := stepH_frame s op ref h1 h2
    have hrest := ih (stepH s op) ref (by rw [hstep.2.1]; exact h1)
      (lt_of_lt_of_le h2 hstep.2.2)
    have hfold : runH s (op :: l) = runH (stepH s op) l := rfl
    rw [hfold, hrest, hstep.1]

/-- C9.  A status snapshot is a point-in-time copy.  First conjunct: the
snapshot's reported status is recomputed just-in-time from the pool —
`POOLING` when the pool is non-empty and `IDLE` when empty — except that a
current `EXECUTING` or `ERROR` status is reported unchanged (sticky).
Second conjunct: the pooled-intents array the snapshot shares (via the
shallow `{ ...this.state }` copy) is a cell that no later engine mutation
ever writes — enqueues, drains, execution completions, cooldowns and
further status reads all write only the live pool's cell or allocate fresh
cells — so after *any* sequence of later mutations the snapshot still shows
exactly the pool contents from the moment it was taken. -/
theorem snapshot_immutable (r : HRelayer) (hInv : HInv r) (ops : List HOp) :
    ((getStatusH r).2.status
        = (if r.status = .EXECUTING ∨ r.status = .ERROR then r.status
           else if r.heap.read r.poolRef = [] then BatchStatus.IDLE else .POOLING))
    ∧ (runH (getStatusH r).1 ops).heap.read (getStatusH r).2.pooledRef
        = r.heap.read r.poolRef := by
  unfold HInv at hInv
  constructor
  · rfl
  · have hne : r.heap.cells.length ≠ (syncStateH r).poolRef := by
      show r.heap.cells.length ≠ r.poolRef
      omega
    have hlt : r.heap.cells.length < (syncStateH r).heap.cells.length := by
      show r.heap.cells.length < (r.heap.alloc (r.heap.read r.poolRef)).cells.length
      rw [Heap.length_alloc]
      omega
    have hrun := runH_frame ops (syncStateH r) r.heap.cells.length hne hlt
    have hfst : (getStatusH r).1 = syncStateH r := rfl
    have hsnap : (getStatusH r).2.pooledRef = r.heap.cells.length := rfl
    rw [hfst, hsnap, hrun]
    exact Heap.read_alloc_fresh r.heap _

/-- C9 witness: a snapshot of the constructor state still reads an empty
pooled-intents array after an enqueue and a drain have run. -/
theorem snapshot_immutable_witness :
    ((getStatusH HRelayer.mk0).2.status
        = (if HRelayer.mk0.status = .EXECUTING ∨ HRelayer.mk0.status = .ERROR
           then HRelayer.mk0.status
           else if HRelayer.mk0.heap.read HRelayer.mk0.poolRef = []
             then BatchStatus.IDLE else .POOLING))
    ∧ (runH (getStatusH HRelayer.mk0).1
          [.enqueue 5 (iEx 0), .execBegin]).heap.read
        (getStatusH HRelayer.mk0).2.pooledRef
      = HRelayer.mk0.heap.read HRelayer.mk0.poolRef :=
  snapshot_immutable HRelayer.mk0 (by decide) [.enqueue 5 (iEx 0), .execBegin]

end Aegis
